import Mathlib

/-!
Verification development for the `darker` container runtime.

Strings from the Rust source are modelled as `List Char`; each Rust string
operation used by the code under scrutiny gets a direct Lean counterpart,
and every embedded function mirrors one Rust function (named in its doc
comment) statement by statement.
-/

namespace Darker

/-- The set of characters trimmed by Rust's `str::trim`
(Unicode property White_Space). -/
def rustIsWhitespace (c : Char) : Bool :=
  c.val = 0x09 || c.val = 0x0A || c.val = 0x0B || c.val = 0x0C || c.val = 0x0D ||
  c.val = 0x20 || c.val = 0x85 || c.val = 0xA0 || c.val = 0x1680 ||
  (0x2000 ≤ c.val && c.val ≤ 0x200A) ||
  c.val = 0x2028 || c.val = 0x2029 || c.val = 0x202F || c.val = 0x205F ||
  c.val = 0x3000

/-- Rust `str::trim`: drop whitespace from both ends. -/
def rustTrim (l : List Char) : List Char :=
  ((l.dropWhile rustIsWhitespace).reverse.dropWhile rustIsWhitespace).reverse

/-- Rust `str::splitn(2, c)` / `split_once(c)`: split at the first
occurrence of `c`, `none` when `c` does not occur. -/
def splitFirst (c : Char) : List Char → Option (List Char × List Char)
  | [] => none
  | d :: ds =>
    if d = c then some ([], ds)
    else (splitFirst c ds).map (fun p => (d :: p.1, p.2))

/-- Rust `str::rsplitn(2, c)` / `rsplit_once(c)`: split at the last
occurrence of `c`, `none` when `c` does not occur. -/
def splitLast (c : Char) (l : List Char) : Option (List Char × List Char) :=
  (splitFirst c l.reverse).map (fun p => (p.2.reverse, p.1.reverse))

/-- Rust `str::split('/').next()`: the segment before the first `/`
(the whole string when there is none). -/
def firstSegment (l : List Char) : List Char :=
  l.takeWhile (fun c => c ≠ '/')

/-- `ImageReference` from `src/image/oci.rs`. -/
structure ImageReference where
  registry : List Char
  repository : List Char
  tag : List Char
  digest : Option (List Char)
deriving DecidableEq, Repr

/-- The registry test inside `ImageReference::parse`
(`src/image/oci.rs` line 52): the first path segment "looks like a
registry" iff it contains a dot, contains a colon or equals `localhost`. -/
def looksLikeRegistry (p : List Char) : Bool :=
  p.contains '.' || p.contains ':' || p = "localhost".data

/-- `ImageReference::parse` from `src/image/oci.rs` lines 21-73.
Translated clause by clause: trim; reject empty; peel a `@digest` suffix
at the first `@`; split a tag at the last `:` only when the right-hand
side has no `/` (default tag `latest`); then decide registry and
repository from the first `/` segment. -/
def ImageReference.parse (reference : List Char) : Option ImageReference :=
  let reference := rustTrim reference
  if reference = [] then
    none
  else
    let peeled : List Char × Option (List Char) :=
      match splitFirst '@' reference with
      | some (a, b) => (a, some b)
      | none => (reference, none)
    let refWithoutDigest := peeled.1
    let digest := peeled.2
    let tagged : List Char × List Char :=
      match splitLast ':' refWithoutDigest with
      | some (a, b) =>
        if b.contains '/' then (refWithoutDigest, "latest".data) else (a, b)
      | none => (refWithoutDigest, "latest".data)
    let refWithoutTag := tagged.1
    let tag := tagged.2
    let named : List Char × List Char :=
      if refWithoutTag.contains '/' then
        if looksLikeRegistry (firstSegment refWithoutTag) then
          match splitFirst '/' refWithoutTag with
          | some (a, b) => (a, b)
          | none => (refWithoutTag, [])
        else
          ("docker.io".data, refWithoutTag)
      else
        ("docker.io".data, "library/".data ++ refWithoutTag)
    some ⟨named.1, named.2, tag, digest⟩

/-- `ImageReference::repository_with_registry` from `src/image/oci.rs`
lines 76-82. -/
def ImageReference.repositoryWithRegistry (r : ImageReference) : List Char :=
  if r.registry = "docker.io".data then r.repository
  else r.registry ++ '/' :: r.repository

/-- `ImageReference::full_name` from `src/image/oci.rs` lines 85-87. -/
def ImageReference.fullName (r : ImageReference) : List Char :=
  r.repositoryWithRegistry ++ ':' :: r.tag

theorem splitFirst_eq_none {c : Char} {l : List Char} (h : c ∉ l) :
    splitFirst c l = none := by
  induction l with
  | nil => rfl
  | cons d ds ih =>
    simp only [List.mem_cons, not_or] at h
    simp [splitFirst, Ne.symm h.1, ih h.2]

theorem splitFirst_eq_some {c : Char} {l a b : List Char}
    (h : splitFirst c l = some (a, b)) : l = a ++ c :: b ∧ c ∉ a := by
  induction l generalizing a b with
  | nil => simp [splitFirst] at h
  | cons d ds ih =>
    by_cases hd : d = c
    · simp only [splitFirst, if_pos hd, Option.some.injEq, Prod.mk.injEq] at h
      obtain ⟨rfl, rfl⟩ := h
      simp [hd]
    · rw [splitFirst, if_neg hd, Option.map_eq_some'] at h
      obtain ⟨⟨a0, b0⟩, h0, heq⟩ := h
      simp only [Prod.mk.injEq] at heq
      obtain ⟨rfl, rfl⟩ := heq
      obtain ⟨hl, hna⟩ := ih h0
      refine ⟨by simp [hl], ?_⟩
      simp only [List.mem_cons, not_or]
      exact ⟨Ne.symm hd, hna⟩

theorem splitFirst_append {c : Char} {a : List Char} (b : List Char)
    (h : c ∉ a) : splitFirst c (a ++ c :: b) = some (a, b) := by
  induction a with
  | nil => simp [splitFirst]
  | cons d ds ih =>
    simp only [List.mem_cons, not_or] at h
    simp [splitFirst, Ne.symm h.1, ih h.2]

theorem splitLast_eq_some {c : Char} {l a b : List Char}
    (h : splitLast c l = some (a, b)) : l = a ++ c :: b ∧ c ∉ b := by
  rw [splitLast, Option.map_eq_some'] at h
  obtain ⟨⟨a0, b0⟩, h0, heq⟩ := h
  simp only [Prod.mk.injEq] at heq
  obtain ⟨rfl, rfl⟩ := heq
  obtain ⟨hl, hnotin⟩ := splitFirst_eq_some h0
  constructor
  · have := congrArg List.reverse hl
    simpa using this
  · simpa using hnotin

theorem splitLast_eq_none {c : Char} {l : List Char} (h : c ∉ l) :
    splitLast c l = none := by
  have : splitFirst c l.reverse = none := splitFirst_eq_none (by simpa using h)
  simp [splitLast, this]

theorem splitLast_append {c : Char} (a : List Char) {b : List Char}
    (h : c ∉ b) : splitLast c (a ++ c :: b) = some (a, b) := by
  have hrev : (a ++ c :: b).reverse = b.reverse ++ c :: a.reverse := by
    simp
  rw [splitLast, hrev, splitFirst_append _ (by simpa using h)]
  simp

theorem firstSegment_append {a : List Char} (b : List Char)
    (h : '/' ∉ a) : firstSegment (a ++ '/' :: b) = a := by
  induction a with
  | nil => simp [firstSegment, List.takeWhile_cons]
  | cons d ds ih =>
    simp only [List.mem_cons, not_or] at h
    have ih2 := ih h.2
    simp only [firstSegment] at ih2 ⊢
    simp only [List.cons_append, List.takeWhile_cons, ih2]
    simp [Ne.symm h.1]

theorem dropWhile_head_false {p : Char → Bool} {l r : List Char} {c : Char}
    (h : l.dropWhile p = c :: r) : p c = false := by
  induction l with
  | nil => simp [List.dropWhile] at h
  | cons d ds ih =>
    rw [List.dropWhile_cons] at h
    by_cases hd : p d
    · exact ih (by simpa [hd] using h)
    · simp only [hd] at h
      simp only [Bool.false_eq_true, if_neg] at h
      cases h
      simpa using hd

theorem dropWhile_eq_self {p : Char → Bool} {l : List Char}
    (h : ∀ c, l.head? = some c → p c = false) : l.dropWhile p = l := by
  cases l with
  | nil => rfl
  | cons d ds => simp [List.dropWhile_cons, h d rfl]

theorem rustTrim_eq_self {l : List Char}
    (h1 : ∀ c, l.head? = some c → rustIsWhitespace c = false)
    (h2 : ∀ c, l.getLast? = some c → rustIsWhitespace c = false) :
    rustTrim l = l := by
  unfold rustTrim
  rw [dropWhile_eq_self h1]
  rw [dropWhile_eq_self (fun c hc => h2 c (by rwa [← List.head?_reverse]))]
  simp

theorem rustTrim_head {l : List Char} {c : Char}
    (h : (rustTrim l).head? = some c) : rustIsWhitespace c = false := by
  unfold rustTrim at h
  rw [List.head?_reverse] at h
  have hne : (l.dropWhile rustIsWhitespace).reverse.dropWhile rustIsWhitespace ≠ [] := by
    intro hnil
    rw [hnil] at h
    simp at h
  have hsplit := List.takeWhile_append_dropWhile rustIsWhitespace
    (l.dropWhile rustIsWhitespace).reverse
  have hlast : (l.dropWhile rustIsWhitespace).reverse.getLast? = some c := by
    rw [← hsplit, List.getLast?_append_of_ne_nil _ hne]
    exact h
  rw [List.getLast?_reverse] at hlast
  cases hu : l.dropWhile rustIsWhitespace with
  | nil => rw [hu] at hlast; simp at hlast
  | cons y ys =>
    rw [hu] at hlast
    simp only [List.head?_cons, Option.some.injEq] at hlast
    subst hlast
    exact dropWhile_head_false hu

theorem rustTrim_getLast {l : List Char} {c : Char}
    (h : (rustTrim l).getLast? = some c) : rustIsWhitespace c = false := by
  unfold rustTrim at h
  rw [List.getLast?_reverse] at h
  cases hw : (l.dropWhile rustIsWhitespace).reverse.dropWhile rustIsWhitespace with
  | nil => rw [hw] at h; simp at h
  | cons x xs =>
    rw [hw] at h
    simp only [List.head?_cons, Option.some.injEq] at h
    subst h
    exact dropWhile_head_false hw

theorem splitFirst_eq_none_iff {c : Char} {l : List Char} :
    splitFirst c l = none ↔ c ∉ l := by
  constructor
  · intro h hmem
    induction l with
    | nil => simp at hmem
    | cons d ds ih =>
      by_cases hd : d = c
      · simp [splitFirst, hd] at h
      · rw [splitFirst, if_neg hd] at h
        rcases List.mem_cons.mp hmem with h1 | h1
        · exact hd h1.symm
        · cases hs : splitFirst c ds with
          | none => exact ih (by simp [hs]) h1
          | some p => simp [hs] at h
  · exact splitFirst_eq_none

/-- The string never starts with whitespace (vacuous for the empty one). -/
def headNotWs (l : List Char) : Prop :=
  ∀ c, l.head? = some c → rustIsWhitespace c = false

/-- The string never ends with whitespace (vacuous for the empty one). -/
def lastNotWs (l : List Char) : Prop :=
  ∀ c, l.getLast? = some c → rustIsWhitespace c = false

theorem headNotWs_of_append {a x : List Char} (h : headNotWs (a ++ x)) :
    headNotWs a := by
  intro c hc
  cases a with
  | nil => simp at hc
  | cons d ds =>
    simp only [List.head?_cons, Option.some.injEq] at hc
    exact h c (by simp [hc])

theorem head?_append_left {a : List Char} (x : List Char) (h : a ≠ []) :
    (a ++ x).head? = a.head? := by
  cases a with
  | nil => exact absurd rfl h
  | cons d ds => rfl

theorem getLast?_cons_ne_nil {c : Char} {l : List Char} (h : l ≠ []) :
    (c :: l).getLast? = l.getLast? := by
  cases l with
  | nil => exact absurd rfl h
  | cons d ds => exact List.getLast?_cons_cons

theorem looksLikeRegistry_ne_nil {p : List Char}
    (h : looksLikeRegistry p = true) : p ≠ [] := by
  intro hnil
  rw [hnil] at h
  simp [looksLikeRegistry] at h

/-- Re-parsing an assembled `repository:tag` name whose repository is a
docker.io-style path (has a slash, registry-unlike first segment, no
leading whitespace): the parse lands back on exactly that repository and
tag under registry `docker.io`. -/
theorem parse_assembled_docker (repo tag : List Char)
    (hat1 : '@' ∉ repo) (hat2 : '@' ∉ tag)
    (hct : ':' ∉ tag) (hst : '/' ∉ tag)
    (hlast : lastNotWs tag)
    (hslash : '/' ∈ repo)
    (hseg : looksLikeRegistry (firstSegment repo) = false)
    (hhead : headNotWs repo) :
    ImageReference.parse (repo ++ ':' :: tag) =
      some ⟨"docker.io".data, repo, tag, none⟩ := by
  have hrne : repo ≠ [] := by
    intro h
    rw [h] at hslash
    simp at hslash
  have htrim : rustTrim (repo ++ ':' :: tag) = repo ++ ':' :: tag := by
    apply rustTrim_eq_self
    · intro c hc
      rw [head?_append_left _ hrne] at hc
      exact hhead c hc
    · intro c hc
      rw [List.getLast?_append_of_ne_nil _ (by simp)] at hc
      cases htag : tag with
      | nil =>
        rw [htag] at hc
        simp only [List.getLast?_singleton, Option.some.injEq] at hc
        subst hc
        decide
      | cons d ds =>
        rw [htag, List.getLast?_cons_cons] at hc
        exact hlast c (htag ▸ hc)
  have hne : repo ++ ':' :: tag ≠ [] := by simp
  have hat : splitFirst '@' (repo ++ ':' :: tag) = none := by
    apply splitFirst_eq_none
    simp only [List.mem_append, List.mem_cons, not_or]
    exact ⟨hat1, by decide, hat2⟩
  have hcolon : splitLast ':' (repo ++ ':' :: tag) = some (repo, tag) :=
    splitLast_append _ hct
  have hguard : tag.contains '/' = false := by
    simpa using hst
  have hmem : repo.contains '/' = true := by
    simpa using hslash
  simp only [ImageReference.parse, htrim, if_neg hne, hat, hcolon, hguard,
    Bool.false_eq_true, if_false, hmem, if_true, hseg]

/-- Re-parsing an assembled `registry/repository:tag` name whose registry
segment looks like a registry (dot, colon or `localhost`): the parse
lands back on exactly those three components. -/
theorem parse_assembled_registry (reg repo tag : List Char)
    (hreg : looksLikeRegistry reg = true)
    (hsr : '/' ∉ reg)
    (hat0 : '@' ∉ reg) (hat1 : '@' ∉ repo) (hat2 : '@' ∉ tag)
    (hct : ':' ∉ tag) (hst : '/' ∉ tag)
    (hlast : lastNotWs tag)
    (hhead : headNotWs reg) :
    ImageReference.parse ((reg ++ '/' :: repo) ++ ':' :: tag) =
      some ⟨reg, repo, tag, none⟩ := by
  have hrne : reg ≠ [] := looksLikeRegistry_ne_nil hreg
  have htrim : rustTrim ((reg ++ '/' :: repo) ++ ':' :: tag) =
      (reg ++ '/' :: repo) ++ ':' :: tag := by
    apply rustTrim_eq_self
    · intro c hc
      rw [head?_append_left _ (by simp), head?_append_left _ hrne] at hc
      exact hhead c hc
    · intro c hc
      rw [List.getLast?_append_of_ne_nil _ (by simp)] at hc
      cases htag : tag with
      | nil =>
        rw [htag] at hc
        simp only [List.getLast?_singleton, Option.some.injEq] at hc
        subst hc
        decide
      | cons d ds =>
        rw [htag, List.getLast?_cons_cons] at hc
        exact hlast c (htag ▸ hc)
  have hne : (reg ++ '/' :: repo) ++ ':' :: tag ≠ [] := by simp
  have hat : splitFirst '@' ((reg ++ '/' :: repo) ++ ':' :: tag) = none := by
    apply splitFirst_eq_none
    simp only [List.mem_append, List.mem_cons, not_or]
    exact ⟨⟨hat0, by decide, hat1⟩, by decide, hat2⟩
  have hcolon : splitLast ':' ((reg ++ '/' :: repo) ++ ':' :: tag) =
      some (reg ++ '/' :: repo, tag) :=
    splitLast_append _ hct
  have hguard : tag.contains '/' = false := by
    simpa using hst
  have hmem : (reg ++ '/' :: repo).contains '/' = true := by
    simp
  have hseg : firstSegment (reg ++ '/' :: repo) = reg :=
    firstSegment_append _ hsr
  have hsplit : splitFirst '/' (reg ++ '/' :: repo) = some (reg, repo) :=
    splitFirst_append _ hsr
  simp only [ImageReference.parse, htrim, if_neg hne, hat, hcolon, hguard,
    Bool.false_eq_true, if_false, hmem, if_true, hseg, hreg, hsplit]

theorem lastNotWs_latest : lastNotWs "latest".data := by
  intro c hc
  rw [show ("latest".data).getLast? = some 't' by decide] at hc
  cases hc
  decide

/-- The registry/repository analysis shared by every tag branch of the
round-trip proof: whatever registry decision `parse` took on
`refWithoutTag`, re-parsing the assembled full name reproduces it. -/
theorem roundtrip_registry_cases (rwt tag : List Char) (r : ImageReference)
    (hatr : '@' ∉ rwt) (hatt : '@' ∉ tag)
    (hct : ':' ∉ tag) (hst : '/' ∉ tag) (hlast : lastNotWs tag)
    (hhead : headNotWs rwt)
    (hnamed : (r.registry, r.repository) =
      (if rwt.contains '/' = true then
        (if looksLikeRegistry (firstSegment rwt) = true then
          (match splitFirst '/' rwt with
           | some (a, b) => (a, b)
           | none => (rwt, []))
         else ("docker.io".data, rwt))
       else ("docker.io".data, "library/".data ++ rwt)))
    (htag : r.tag = tag) (hdig : r.digest = none)
    (hdk : r.registry = "docker.io".data →
      '/' ∈ r.repository ∧
      looksLikeRegistry (firstSegment r.repository) = false ∧
      headNotWs r.repository) :
    ImageReference.parse r.fullName = some r := by
  obtain ⟨rreg, rrepo, rtag, rdig⟩ := r
  have htag2 : rtag = tag := htag
  have hdig2 : rdig = none := hdig
  have hnamed2 : (rreg, rrepo) =
      (if rwt.contains '/' = true then
        (if looksLikeRegistry (firstSegment rwt) = true then
          (match splitFirst '/' rwt with
           | some (a, b) => (a, b)
           | none => (rwt, []))
         else ("docker.io".data, rwt))
       else ("docker.io".data, "library/".data ++ rwt)) := hnamed
  have hdk2 : rreg = "docker.io".data →
      '/' ∈ rrepo ∧
      looksLikeRegistry (firstSegment rrepo) = false ∧
      headNotWs rrepo := hdk
  clear htag hdig hnamed hdk
  rw [show (⟨rreg, rrepo, rtag, rdig⟩ : ImageReference) = ⟨rreg, rrepo, tag, none⟩ from by
    rw [htag2, hdig2]]
  by_cases hsl : rwt.contains '/' = true
  · rw [if_pos hsl] at hnamed2
    by_cases hlk : looksLikeRegistry (firstSegment rwt) = true
    · rw [if_pos hlk] at hnamed2
      cases hsp : splitFirst '/' rwt with
      | none => exact absurd (splitFirst_eq_none_iff.mp hsp) (by simpa using hsl)
      | some pr =>
        obtain ⟨reg0, repo0⟩ := pr
        rw [hsp] at hnamed2
        simp only [Prod.mk.injEq] at hnamed2
        obtain ⟨h1, h2⟩ := hnamed2
        rw [h1, h2] at hdk2
        rw [h1, h2]
        obtain ⟨heq2, hnr⟩ := splitFirst_eq_some hsp
        have hfs : firstSegment rwt = reg0 := by
          rw [heq2]
          exact firstSegment_append _ hnr
        have hreg : looksLikeRegistry reg0 = true := by
          rw [hfs] at hlk
          exact hlk
        have hat0 : '@' ∉ reg0 := fun hx => hatr (by rw [heq2]; simp [hx])
        have hat1 : '@' ∉ repo0 := fun hx => hatr (by rw [heq2]; simp [hx])
        have hh0 : headNotWs reg0 := headNotWs_of_append (heq2 ▸ hhead)
        by_cases hdq : reg0 = "docker.io".data
        · subst hdq
          obtain ⟨c1, c2, c3⟩ := hdk2 rfl
          rw [show ImageReference.fullName ⟨"docker.io".data, repo0, tag, none⟩ =
              repo0 ++ ':' :: tag from by
            simp [ImageReference.fullName, ImageReference.repositoryWithRegistry]]
          exact parse_assembled_docker repo0 tag hat1 hatt hct hst hlast c1 c2 c3
        · rw [show ImageReference.fullName ⟨reg0, repo0, tag, none⟩ =
              (reg0 ++ '/' :: repo0) ++ ':' :: tag from by
            simp [ImageReference.fullName, ImageReference.repositoryWithRegistry, hdq]]
          exact parse_assembled_registry reg0 repo0 tag hreg hnr hat0 hat1 hatt
            hct hst hlast hh0
    · rw [if_neg hlk] at hnamed2
      simp only [Prod.mk.injEq] at hnamed2
      obtain ⟨h1, h2⟩ := hnamed2
      rw [h1, h2]
      have hlkf : looksLikeRegistry (firstSegment rwt) = false := by
        revert hlk
        cases looksLikeRegistry (firstSegment rwt) <;> simp
      rw [show ImageReference.fullName ⟨"docker.io".data, rwt, tag, none⟩ =
          rwt ++ ':' :: tag from by
        simp [ImageReference.fullName, ImageReference.repositoryWithRegistry]]
      exact parse_assembled_docker rwt tag hatr hatt hct hst hlast
        (by simpa using hsl) hlkf hhead
  · rw [if_neg hsl] at hnamed2
    simp only [Prod.mk.injEq] at hnamed2
    obtain ⟨h1, h2⟩ := hnamed2
    rw [h1, h2]
    rw [show ImageReference.fullName ⟨"docker.io".data, "library/".data ++ rwt, tag, none⟩ =
        ("library/".data ++ rwt) ++ ':' :: tag from by
      simp [ImageReference.fullName, ImageReference.repositoryWithRegistry]]
    apply parse_assembled_docker
    · intro hx
      rcases List.mem_append.mp hx with h | h
      · revert h
        decide
      · exact hatr h
    · exact hatt
    · exact hct
    · exact hst
    · exact hlast
    · exact List.mem_append.mpr (Or.inl (by decide))
    · rw [show "library/".data ++ rwt = "library".data ++ '/' :: rwt from rfl,
        firstSegment_append _ (by decide)]
      decide
    · intro c hc
      rw [show (("library/".data ++ rwt)).head? = some 'l' from rfl] at hc
      cases hc
      decide

/-- C3 (amended): the canonical-form round-trip
`parse (parse s).full_name = parse s` holds for every parseable `s` whose
parse carries no digest, provided that when the parsed registry is
`docker.io` the parsed repository has a slash, a registry-unlike first
segment and no leading whitespace (the conditions the explicit
`docker.io/...` input forms can break; every other input satisfies them
by construction). -/
theorem parse_fullName_roundtrip (s : List Char) (r : ImageReference)
    (hp : ImageReference.parse s = some r)
    (hdig : r.digest = none)
    (hdk : r.registry = "docker.io".data →
      '/' ∈ r.repository ∧
      looksLikeRegistry (firstSegment r.repository) = false ∧
      headNotWs r.repository) :
    ImageReference.parse r.fullName = some r := by
  have hthead : headNotWs (rustTrim s) := fun c hc => rustTrim_head hc
  have htlast : lastNotWs (rustTrim s) := fun c hc => rustTrim_getLast hc
  simp only [ImageReference.parse] at hp
  by_cases hnil : rustTrim s = []
  · rw [if_pos hnil] at hp
    exact absurd hp (by simp)
  rw [if_neg hnil] at hp
  cases hat : splitFirst '@' (rustTrim s) with
  | some p =>
    obtain ⟨pa, pb⟩ := p
    rw [hat] at hp
    simp only [] at hp
    cases hp
    simp at hdig
  | none =>
    rw [hat] at hp
    simp only [] at hp
    have hatm : '@' ∉ rustTrim s := splitFirst_eq_none_iff.mp hat
    -- the three tag-split branches each produce a pair (rwt, tag)
    -- satisfying the assembly lemmas' side conditions
    cases hcol : splitLast ':' (rustTrim s) with
    | none =>
      rw [hcol] at hp
      simp only [] at hp
      have hinj := Option.some.inj hp
      subst hinj
      exact roundtrip_registry_cases (rustTrim s) "latest".data _ hatm
        (by decide) (by decide) (by decide) lastNotWs_latest hthead rfl rfl rfl hdk
    | some q =>
      obtain ⟨qa, qb⟩ := q
      rw [hcol] at hp
      simp only [] at hp
      obtain ⟨heq, hcq⟩ := splitLast_eq_some hcol
      by_cases hguard : qb.contains '/' = true
      · rw [if_pos hguard] at hp
        have hinj := Option.some.inj hp
        subst hinj
        exact roundtrip_registry_cases (rustTrim s) "latest".data _ hatm
          (by decide) (by decide) (by decide) lastNotWs_latest hthead rfl rfl rfl hdk
      · rw [if_neg hguard] at hp
        have hguardf : qb.contains '/' = false := by
          revert hguard
          cases qb.contains '/' <;> simp
        have hatqa : '@' ∉ qa := by
          intro hx
          exact hatm (by rw [heq]; simp [hx])
        have hatqb : '@' ∉ qb := by
          intro hx
          exact hatm (by rw [heq]; simp [hx])
        have hstq : '/' ∉ qb := by simpa using hguardf
        have hlastq : lastNotWs qb := by
          intro c hc
          have hqbne : qb ≠ [] := by
            intro hx
            rw [hx] at hc
            simp at hc
          apply htlast c
          rw [heq, List.getLast?_append_of_ne_nil _ (by simp),
            getLast?_cons_ne_nil hqbne]
          exact hc
        have hheadq : headNotWs qa := headNotWs_of_append (heq ▸ hthead)
        have hinj := Option.some.inj hp
        subst hinj
        exact roundtrip_registry_cases qa qb _ hatqa hatqb hcq hstq hlastq
          hheadq rfl rfl rfl hdk

/-- C3 counterexample: the round-trip fails as universally stated.
`docker.io/foo` parses to repository `foo`, but its full name `foo:latest`
re-parses to repository `library/foo`, so
`parse (parse s).full_name ≠ parse s` at this input. -/
theorem parse_fullName_roundtrip_counterexample :
    ImageReference.parse "docker.io/foo".data =
      some ⟨"docker.io".data, "foo".data, "latest".data, none⟩ ∧
    ImageReference.fullName
        ⟨"docker.io".data, "foo".data, "latest".data, none⟩ = "foo:latest".data ∧
    ImageReference.parse "foo:latest".data =
      some ⟨"docker.io".data, "library/foo".data, "latest".data, none⟩ ∧
    ("foo".data : List Char) ≠ "library/foo".data := by
  exact ⟨by decide, by decide, by decide, by decide⟩

/-- Witness: the amended round-trip applied to `ghcr.io/owner/repo:tag`. -/
theorem parse_fullName_roundtrip_witness :
    ImageReference.parse
        (ImageReference.fullName ⟨"ghcr.io".data, "owner/repo".data, "tag".data, none⟩) =
      some ⟨"ghcr.io".data, "owner/repo".data, "tag".data, none⟩ := by
  exact parse_fullName_roundtrip "ghcr.io/owner/repo:tag".data
    ⟨"ghcr.io".data, "owner/repo".data, "tag".data, none⟩
    (by decide) (by decide) (fun h => absurd h (by decide))

/-- C2: the five-input parse chain from the spec: registries, repositories
and tags come out exactly as listed, with `latest` defaulted where no tag
is given and the `localhost:5000` colon read as a registry port. -/
theorem parse_chain_examples :
    ImageReference.parse "alpine".data =
      some ⟨"docker.io".data, "library/alpine".data, "latest".data, none⟩ ∧
    ImageReference.parse "alpine:3.18".data =
      some ⟨"docker.io".data, "library/alpine".data, "3.18".data, none⟩ ∧
    ImageReference.parse "myuser/myapp:v1.0".data =
      some ⟨"docker.io".data, "myuser/myapp".data, "v1.0".data, none⟩ ∧
    ImageReference.parse "ghcr.io/owner/repo:tag".data =
      some ⟨"ghcr.io".data, "owner/repo".data, "tag".data, none⟩ ∧
    ImageReference.parse "localhost:5000/x".data =
      some ⟨"localhost:5000".data, "x".data, "latest".data, none⟩ := by
  refine ⟨by decide, by decide, by decide, by decide, by decide⟩

/-- The quote replacement inside `shell_escape`
(`src/darwin/spawn.rs` line 310, identically `src/runtime/process.rs`):
Rust `s.replace('\'', "'\\''")`, replacing every single quote by the
four characters quote, backslash, quote, quote. -/
def replaceQuote : List Char → List Char
  | [] => []
  | c :: cs =>
    if c = '\'' then '\'' :: '\\' :: '\'' :: '\'' :: replaceQuote cs
    else c :: replaceQuote cs

/-- `shell_escape` from `src/darwin/spawn.rs` lines 302-312 (the copy in
`src/runtime/process.rs` lines 226-236 is textually identical): the empty
string becomes two quotes, any other string is wrapped in single quotes
with interior single quotes replaced. -/
def shellEscape (s : List Char) : List Char :=
  if s = [] then "''".data
  else '\'' :: (replaceQuote s ++ ['\''])

/-- Quoting state of the POSIX shell word scanner: outside quotes,
after a backslash outside quotes, inside single quotes, inside double
quotes, after a backslash inside double quotes. -/
inductive ShellMode
  | normal
  | escNormal
  | inSingle
  | inDouble
  | escDouble
deriving DecidableEq, Repr

/-- Modelled from the POSIX shell grammar (token recognition and quote
removal as `/bin/sh -c` applies them to its command string): scan the
characters, splitting an argument list on unquoted blanks; single quotes
make everything literal up to the closing quote; a backslash escapes the
next character (removing an escaped newline); double quotes preserve
blanks, with backslash special before dollar, backquote, double quote,
backslash and newline. `cur` is the argument being accumulated (`none`
when no argument has started), `acc` the finished arguments. An
unterminated quote or trailing backslash yields `none`. -/
def shellSplitAux :
    List Char → ShellMode → Option (List Char) → List (List Char) →
      Option (List (List Char))
  | [], .normal, none, acc => some acc
  | [], .normal, some w, acc => some (acc ++ [w])
  | [], .escNormal, _, _ => none
  | [], .inSingle, _, _ => none
  | [], .inDouble, _, _ => none
  | [], .escDouble, _, _ => none
  | c :: cs, .normal, cur, acc =>
    if c = ' ' ∨ c = '\t' ∨ c = '\n' then
      match cur with
      | some w => shellSplitAux cs .normal none (acc ++ [w])
      | none => shellSplitAux cs .normal none acc
    else if c = '\'' then shellSplitAux cs .inSingle (some (cur.getD [])) acc
    else if c = '"' then shellSplitAux cs .inDouble (some (cur.getD [])) acc
    else if c = '\\' then shellSplitAux cs .escNormal cur acc
    else shellSplitAux cs .normal (some (cur.getD [] ++ [c])) acc
  | c :: cs, .escNormal, cur, acc =>
    if c = '\n' then shellSplitAux cs .normal cur acc
    else shellSplitAux cs .normal (some (cur.getD [] ++ [c])) acc
  | c :: cs, .inSingle, cur, acc =>
    if c = '\'' then shellSplitAux cs .normal cur acc
    else shellSplitAux cs .inSingle (some (cur.getD [] ++ [c])) acc
  | c :: cs, .inDouble, cur, acc =>
    if c = '"' then shellSplitAux cs .normal cur acc
    else if c = '\\' then shellSplitAux cs .escDouble cur acc
    else shellSplitAux cs .inDouble (some (cur.getD [] ++ [c])) acc
  | c :: cs, .escDouble, cur, acc =>
    if c = '\n' then shellSplitAux cs .inDouble cur acc
    else if c = '$' ∨ c = '`' ∨ c = '"' ∨ c = '\\' then
      shellSplitAux cs .inDouble (some (cur.getD [] ++ [c])) acc
    else shellSplitAux cs .inDouble (some (cur.getD [] ++ ['\\', c])) acc

/-- The argument list `/bin/sh` recovers from a command string. -/
def shellSplit (l : List Char) : Option (List (List Char)) :=
  shellSplitAux l .normal none []

theorem ssaux_single_quote (cs : List Char) (cur : Option (List Char))
    (acc : List (List Char)) :
    shellSplitAux ('\'' :: cs) .inSingle cur acc =
      shellSplitAux cs .normal cur acc := rfl

theorem ssaux_single_other {c : Char} (h : ¬c = '\'') (cs : List Char)
    (cur : Option (List Char)) (acc : List (List Char)) :
    shellSplitAux (c :: cs) .inSingle cur acc =
      shellSplitAux cs .inSingle (some (cur.getD [] ++ [c])) acc := by
  rw [shellSplitAux, if_neg h]

theorem ssaux_normal_quote (cs : List Char) (cur : Option (List Char))
    (acc : List (List Char)) :
    shellSplitAux ('\'' :: cs) .normal cur acc =
      shellSplitAux cs .inSingle (some (cur.getD [])) acc := rfl

theorem ssaux_normal_backslash (cs : List Char) (cur : Option (List Char))
    (acc : List (List Char)) :
    shellSplitAux ('\\' :: cs) .normal cur acc =
      shellSplitAux cs .escNormal cur acc := rfl

theorem ssaux_esc_quote (cs : List Char) (cur : Option (List Char))
    (acc : List (List Char)) :
    shellSplitAux ('\'' :: cs) .escNormal cur acc =
      shellSplitAux cs .normal (some (cur.getD [] ++ ['\''])) acc := rfl

theorem ssaux_normal_space_some (cs w : List Char) (acc : List (List Char)) :
    shellSplitAux (' ' :: cs) .normal (some w) acc =
      shellSplitAux cs .normal none (acc ++ [w]) := rfl

theorem shellSplitAux_replaceQuote (s : List Char) (w rest : List Char)
    (acc : List (List Char)) :
    shellSplitAux (replaceQuote s ++ '\'' :: rest) .inSingle (some w) acc =
      shellSplitAux rest .normal (some (w ++ s)) acc := by
  induction s generalizing w with
  | nil =>
    show shellSplitAux ('\'' :: rest) .inSingle (some w) acc = _
    rw [ssaux_single_quote]
    simp
  | cons c cs ih =>
    by_cases hc : c = '\''
    · subst hc
      show shellSplitAux
        ('\'' :: '\\' :: '\'' :: '\'' :: (replaceQuote cs ++ '\'' :: rest))
        .inSingle (some w) acc = _
      rw [ssaux_single_quote, ssaux_normal_backslash, ssaux_esc_quote,
        ssaux_normal_quote, ih]
      simp
    · rw [show replaceQuote (c :: cs) = c :: replaceQuote cs from by
        rw [replaceQuote, if_neg hc]]
      rw [List.cons_append, ssaux_single_other hc, ih]
      simp

/-- C1: `shell_escape` is correct against the shell's word scanner. For
every string `s`, the escaped form read back by `/bin/sh` yields exactly
the single argument `s` (the empty string included, via the literal two
quotes), and interpolated before further command text it contributes
exactly the one argument `s`. -/
theorem shellEscape_parses_back (s : List Char) :
    shellSplit (shellEscape s) = some [s] ∧
    (∀ rest acc,
      shellSplitAux (shellEscape s ++ ' ' :: rest) .normal none acc =
        shellSplitAux rest .normal none (acc ++ [s])) := by
  constructor
  · by_cases hs : s = []
    · subst hs
      decide
    · rw [shellEscape, if_neg hs, shellSplit]
      rw [ssaux_normal_quote, shellSplitAux_replaceQuote]
      show some ([] ++ [Option.getD (some (Option.getD none [] ++ s)) []]) = _
      simp
  · intro rest acc
    by_cases hs : s = []
    · subst hs
      show shellSplitAux ('\'' :: '\'' :: ' ' :: rest) .normal none acc = _
      rw [ssaux_normal_quote, ssaux_single_quote, ssaux_normal_space_some]
      simp
    · rw [shellEscape, if_neg hs]
      rw [show ('\'' :: (replaceQuote s ++ ['\''])) ++ ' ' :: rest =
        '\'' :: (replaceQuote s ++ '\'' :: ' ' :: rest) from by simp]
      rw [ssaux_normal_quote, shellSplitAux_replaceQuote,
        ssaux_normal_space_some]
      simp

/-- `ContainerStatus` from `src/runtime/state.rs` lines 7-13. -/
inductive ContainerStatus
  | created
  | running
  | paused
  | stopped
  | dead
deriving DecidableEq, Repr

/-- `ContainerEvent` from `src/runtime/state.rs` lines 45-54; `Die`
carries the exit code. -/
inductive ContainerEvent
  | create
  | start
  | pause
  | unpause
  | stop
  | kill
  | die (exitCode : Int)
  | remove
deriving DecidableEq, Repr

/-- `ContainerEvent::is_valid_transition` from `src/runtime/state.rs`
lines 58-73, arm for arm. -/
def ContainerEvent.isValidTransition
    (fromState : ContainerStatus) (event : ContainerEvent) : Bool :=
  match fromState, event with
  | .created, .start => true
  | .created, .remove => true
  | .running, .pause => true
  | .running, .stop => true
  | .running, .kill => true
  | .running, .die _ => true
  | .paused, .unpause => true
  | .paused, .stop => true
  | .paused, .kill => true
  | .stopped, .start => true
  | .stopped, .remove => true
  | _, _ => false

/-- `ContainerEvent::apply` from `src/runtime/state.rs` lines 76-91:
`None` when the transition is invalid, else the target status determined
by the event alone. -/
def ContainerEvent.apply
    (fromState : ContainerStatus) (event : ContainerEvent) :
    Option ContainerStatus :=
  if !ContainerEvent.isValidTransition fromState event then none
  else
    match event with
    | .create => some .created
    | .start => some .running
    | .pause => some .paused
    | .unpause => some .running
    | .stop => some .stopped
    | .kill => some .stopped
    | .die _ => some .stopped
    | .remove => some .dead

/-- The eleven transitions the claim lists, as an inductive relation. -/
inductive Permitted : ContainerStatus → ContainerEvent → ContainerStatus → Prop
  | createdStart : Permitted .created .start .running
  | createdRemove : Permitted .created .remove .dead
  | runningPause : Permitted .running .pause .paused
  | runningStop : Permitted .running .stop .stopped
  | runningKill : Permitted .running .kill .stopped
  | runningDie (code : Int) : Permitted .running (.die code) .stopped
  | pausedUnpause : Permitted .paused .unpause .running
  | pausedStop : Permitted .paused .stop .stopped
  | pausedKill : Permitted .paused .kill .stopped
  | stoppedStart : Permitted .stopped .start .running
  | stoppedRemove : Permitted .stopped .remove .dead

/-- C4: the lifecycle step relation permits exactly the eleven listed
(state, event) transitions with the listed targets; for every other pair
`is_valid_transition` is `false` and `apply` fails (returns `None`, the
state machine's failure outcome). -/
theorem lifecycle_state_machine :
    (∀ s e t, ContainerEvent.apply s e = some t ↔ Permitted s e t) ∧
    (∀ s e, ContainerEvent.isValidTransition s e = false ↔
      ContainerEvent.apply s e = none) := by
  constructor
  · intro s e t
    constructor
    · intro h
      cases s <;> cases e <;>
        simp [ContainerEvent.apply, ContainerEvent.isValidTransition] at h <;>
        (subst h; constructor)
    · intro h
      cases h <;> rfl
  · intro s e
    cases s <;> cases e <;>
      simp [ContainerEvent.apply, ContainerEvent.isValidTransition]

/-- `ContainerState` from `src/storage/containers.rs` lines 32-40, with
`DateTime<Utc>` modelled as a numeric timestamp. -/
structure ContainerState where
  running : Bool
  paused : Bool
  pid : Option Nat
  exitCode : Option Int
  startedAt : Nat
  finishedAt : Option Nat
deriving DecidableEq, Repr

/-- The initial state written by `ContainerStore::create`
(`src/storage/containers.rs` lines 130-139). -/
def initialContainerState (now : Nat) : ContainerState :=
  ⟨false, false, none, none, now, none⟩

/-- One signal-layer action taken by `Container::stop`. -/
inductive SignalAction
  | sigterm (pid : Nat)
  | sleepSecs (secs : Nat)
  | probe (pid : Nat)
  | sigkill (pid : Nat)
deriving DecidableEq, Repr

/-- `Container::stop` from `src/runtime/container.rs` lines 167-201 as a
pure function of the loaded state, the optional timeout, the liveness
probe outcome (`kill(pid, 0) == 0` after the grace sleep) and the clock.
Returns the actions performed and the state persisted (`none` on the
early not-running path, which saves nothing). The store I/O is modelled
as succeeding; the function body has no other failure path, so stop
always succeeds. -/
def containerStop (st : ContainerState) (timeout : Option Nat)
    (stillRunningProbe : Bool) (now : Nat) :
    List SignalAction × Option ContainerState :=
  if !st.running then ([], none)
  else
    let acts :=
      match st.pid with
      | some pid =>
        [SignalAction.sigterm pid, SignalAction.sleepSecs (timeout.getD 10),
          SignalAction.probe pid] ++
          (if stillRunningProbe then [SignalAction.sigkill pid] else [])
      | none => []
    (acts,
      some { st with running := false, finishedAt := some now, pid := none })

/-- C5: `stop` always succeeds. Not running: a no-op that saves nothing.
Running with a recorded pid: SIGTERM, sleep of the given timeout
(defaulting to 10 when none), probe, and SIGKILL exactly when the probe
says the process is still alive; the persisted state always ends with
`running = false`, `finished_at` set and `pid = None`. -/
theorem container_stop_spec (st : ContainerState) (timeout : Option Nat)
    (alive : Bool) (now : Nat) :
    (st.running = false → containerStop st timeout alive now = ([], none)) ∧
    (st.running = true → ∀ pid, st.pid = some pid →
      (containerStop st timeout alive now).1 =
        [SignalAction.sigterm pid, SignalAction.sleepSecs (timeout.getD 10),
          SignalAction.probe pid] ++
          (if alive then [SignalAction.sigkill pid] else [])) ∧
    (st.running = true →
      (containerStop st timeout alive now).2 =
        some { st with running := false, finishedAt := some now, pid := none }) := by
    refine ⟨?_, ?_, ?_⟩
    · intro h
      simp [containerStop, h]
    · intro h pid hpid
      simp [containerStop, h, hpid]
    · intro h
      simp [containerStop, h]

/-- Witness for C5 at a concrete running state with pid 42, no explicit
timeout, and a probe reporting the child still alive. -/
theorem container_stop_spec_witness :
    (containerStop ⟨true, false, some 42, none, 0, none⟩ none true 7).1 =
      [SignalAction.sigterm 42, SignalAction.sleepSecs 10,
        SignalAction.probe 42, SignalAction.sigkill 42] ∧
    (containerStop ⟨true, false, some 42, none, 0, none⟩ none true 7).2 =
      some ⟨false, false, none, none, 0, some 7⟩ := by
  have h := container_stop_spec ⟨true, false, some 42, none, 0, none⟩ none true 7
  exact ⟨by rw [h.2.1 rfl 42 rfl]; rfl, by rw [h.2.2 rfl]⟩

/-- The two states persisted by `Container::run`
(`src/runtime/container.rs` lines 46-51 then 102-107): the pre-spawn save
sets `running := true` and `started_at`, leaving `pid` as loaded; the
post-exit save clears `running`, records the exit code and `finished_at`
and clears `pid`. -/
def runPersistedStates (st0 : ContainerState) (nowStart : Nat)
    (exitCode : Int) (nowEnd : Nat) : List ContainerState :=
  let st1 := { st0 with running := true, startedAt := nowStart }
  let st2 := { st1 with running := false, exitCode := some exitCode, finishedAt := some nowEnd, pid := none }
  [st1, st2]

/-- The state persisted by `Container::start_detached`
(`src/runtime/container.rs` lines 156-163): `running := true`,
`pid := some pid` from the spawner, `started_at := now`. -/
def startDetachedPersistedState (st0 : ContainerState) (pid : Nat)
    (now : Nat) : ContainerState :=
  { st0 with running := true, pid := some pid, startedAt := now }

/-- The invariant claimed for every persisted state. -/
def runningHasPid (st : ContainerState) : Prop :=
  st.running = true → st.pid.isSome = true

/-- C6 counterexample: the very first state `run` persists for a freshly
created container has `running = true` and `pid = None`, so the claimed
invariant fails on a reachable persisted state. -/
theorem run_first_persist_breaks_invariant :
    (runPersistedStates (initialContainerState 0) 1 0 2).head? =
      some ⟨true, false, none, none, 1, none⟩ ∧
    ¬ runningHasPid ⟨true, false, none, none, 1, none⟩ := by
  constructor
  · decide
  · intro h
    have h2 := h rfl
    simp at h2

/-- C6 (amended): the invariant `running = true → pid.is_some()` holds
for the state written by create, for the state persisted by
`start_detached`, for the final state persisted by `run`, and for any
state persisted by `stop` — but not for `run`'s initial persist, which
leaves `pid` as loaded (`None` after create, see the counterexample). -/
theorem persisted_states_invariant :
    (∀ now, runningHasPid (initialContainerState now)) ∧
    (∀ st0 pid now, runningHasPid (startDetachedPersistedState st0 pid now)) ∧
    (∀ st0 nowStart code nowEnd st',
      (runPersistedStates st0 nowStart code nowEnd).getLast? = some st' →
      runningHasPid st') ∧
    (∀ st timeout alive now st',
      (containerStop st timeout alive now).2 = some st' →
      runningHasPid st') := by
  refine ⟨?_, ?_, ?_, ?_⟩
  · intro now h
    simp [initialContainerState] at h
  · intro st0 pid now
    intro h
    simp [startDetachedPersistedState]
  · intro st0 nowStart code nowEnd st' h
    simp only [runPersistedStates, List.getLast?_cons_cons, List.getLast?_singleton,
      Option.some.injEq] at h
    intro hrun
    rw [← h] at hrun
    simp at hrun
  · intro st timeout alive now st' h
    rw [containerStop] at h
    by_cases hr : st.running
    · simp only [hr, Bool.not_true, Bool.false_eq_true, if_false] at h
      intro hrun
      rw [← Option.some.inj h] at hrun
      simp at hrun
    · simp only [Bool.not_eq_true] at hr
      simp [hr] at h

/-- Witness for the amended C6 at concrete inputs. -/
theorem persisted_states_invariant_witness :
    runningHasPid (startDetachedPersistedState (initialContainerState 0) 42 1) ∧
    runningHasPid (⟨false, false, none, some 0, 1, some 2⟩ : ContainerState) := by
  have h := persisted_states_invariant
  exact ⟨h.2.1 (initialContainerState 0) 42 1,
    h.2.2.1 (initialContainerState 0) 1 0 2 _ (by decide)⟩

/-- Rust `str::contains(pat)` for a string pattern: the needle occurs as
a contiguous substring. -/
def containsSeq (needle : List Char) : List Char → Bool
  | [] => needle.isPrefixOf []
  | c :: cs => needle.isPrefixOf (c :: cs) || containsSeq needle cs

/-- The whiteout test of `RootFs::apply_layer`
(`src/filesystem/rootfs.rs` line 195): the path string contains `.wh.`. -/
def hasWhiteoutMarker (p : List Char) : Bool :=
  containsSeq ".wh.".data p

/-- The final path component (after the last `/`), the whole path when
there is no slash. -/
def basename (p : List Char) : List Char :=
  match splitLast '/' p with
  | some q => q.2
  | none => p

theorem containsSeq_append_right {n l : List Char} (x : List Char)
    (h : containsSeq n l = true) : containsSeq n (x ++ l) = true := by
  induction x with
  | nil => exact h
  | cons c cs ih =>
    rw [List.cons_append, containsSeq]
    simp [ih]

theorem hasWhiteoutMarker_of_basename {p : List Char}
    (h : hasWhiteoutMarker (basename p) = true) : hasWhiteoutMarker p = true := by
  unfold basename at h
  cases hsp : splitLast '/' p with
  | none =>
    rw [hsp] at h
    exact h
  | some q =>
    obtain ⟨a, b⟩ := q
    rw [hsp] at h
    obtain ⟨heq, _⟩ := splitLast_eq_some hsp
    rw [heq, show a ++ '/' :: b = (a ++ ['/']) ++ b from by simp]
    exact containsSeq_append_right _ h

/-- One tar archive entry, abstracted to what the two extraction routines
inspect: its path, whether the entry itself reads back cleanly
(`entry_result` and `entry.path()` both `Ok`), and whether unpacking it
to disk succeeds. -/
structure TarEntry where
  path : List Char
  readable : Bool
  unpackOk : Bool
deriving DecidableEq, Repr

/-- tar-rs `Archive::unpack` as invoked by `LayerManager::extract_layer`
(`src/image/layer.rs` lines 92-101, identical for the gzip and plain
branches): entries are unpacked in order, nothing is skipped, and the
first failing entry aborts the whole extraction with its error. -/
def archiveUnpack : List TarEntry → Except (List Char) (List (List Char))
  | [] => .ok []
  | e :: es =>
    if e.readable && e.unpackOk then
      match archiveUnpack es with
      | .ok paths => .ok (e.path :: paths)
      | .error msg => .error msg
    else .error e.path

/-- The per-entry extraction loop of `RootFs::apply_layer`
(`src/filesystem/rootfs.rs` lines 174-210): unreadable entries are
skipped with a debug note, paths containing `.wh.` are skipped, an entry
whose unpack fails is skipped with a debug note, and extraction always
continues to the end. Returns the extracted paths. -/
def applyLayerUnpack : List TarEntry → List (List Char)
  | [] => []
  | e :: es =>
    if !e.readable then applyLayerUnpack es
    else if hasWhiteoutMarker e.path then applyLayerUnpack es
    else if !e.unpackOk then applyLayerUnpack es
    else e.path :: applyLayerUnpack es

/-- Ownership/xattr application flags of an extraction. -/
structure UnpackFlags where
  unpackXattrs : Bool
  preserveOwnerships : Bool
deriving DecidableEq, Repr

/-- Flags in effect for `RootFs::apply_layer`: xattrs explicitly disabled
(`set_unpack_xattrs(false)`, line 172) and ownership left at the tar-rs
default, which does not apply ownership. -/
def applyLayerFlags : UnpackFlags := ⟨false, false⟩

/-- C7 counterexample: `LayerManager::extract_layer` unpacks the archive
wholesale, so a whiteout entry `.wh.secret` is extracted rather than
skipped, and a single failing entry fails the whole extraction instead of
being skipped with a debug note. -/
theorem extract_layer_counterexample :
    hasWhiteoutMarker ".wh.secret".data = true ∧
    archiveUnpack [⟨".wh.secret".data, true, true⟩] =
      .ok [".wh.secret".data] ∧
    archiveUnpack [⟨"fails".data, true, false⟩, ⟨"other".data, true, true⟩] =
      .error "fails".data := by
  exact ⟨by decide, rfl, rfl⟩

/-- C7 (amended): the extraction loop of `RootFs::apply_layer` satisfies
the claimed properties — it keeps exactly the readable, non-whiteout,
cleanly-unpacking entries (so it never fails as a whole), it skips every
entry whose basename contains `.wh.`, and it applies neither xattrs nor
ownership. `LayerManager::extract_layer` does not (see the
counterexample). -/
theorem apply_layer_extraction_spec (entries : List TarEntry) :
    applyLayerUnpack entries =
      (entries.filter fun e =>
        e.readable && !hasWhiteoutMarker e.path && e.unpackOk).map TarEntry.path ∧
    (∀ e ∈ entries, hasWhiteoutMarker (basename e.path) = true →
      e.path ∉ applyLayerUnpack entries) ∧
    applyLayerFlags.unpackXattrs = false ∧
    applyLayerFlags.preserveOwnerships = false := by
  have hchar : ∀ es : List TarEntry, applyLayerUnpack es =
      (es.filter fun e =>
        e.readable && !hasWhiteoutMarker e.path && e.unpackOk).map TarEntry.path := by
    intro es
    induction es with
    | nil => rfl
    | cons e es ih =>
      by_cases h1 : e.readable
      · by_cases h2 : hasWhiteoutMarker e.path
        · simp [applyLayerUnpack, List.filter_cons, h1, h2, ih]
        · by_cases h3 : e.unpackOk
          · simp [applyLayerUnpack, List.filter_cons, h1, h2, h3, ih]
          · simp [applyLayerUnpack, List.filter_cons, h1, h2, h3, ih]
      · simp [applyLayerUnpack, List.filter_cons, h1, ih]
  refine ⟨hchar entries, ?_, rfl, rfl⟩
  intro e he hbase hmem
  rw [hchar entries] at hmem
  obtain ⟨e2, he2, hpath⟩ := List.mem_map.mp hmem
  obtain ⟨_, hpred⟩ := List.mem_filter.mp he2
  have hwh : hasWhiteoutMarker e2.path = false := by
    rcases Bool.and_eq_true_iff.mp hpred with ⟨hl, _⟩
    rcases Bool.and_eq_true_iff.mp hl with ⟨_, hnot⟩
    simpa using hnot
  rw [show e2.path = e.path from hpath] at hwh
  rw [hasWhiteoutMarker_of_basename hbase] at hwh
  cases hwh

/-- Witness for the amended C7 at a concrete three-entry archive. -/
theorem apply_layer_extraction_spec_witness :
    applyLayerUnpack
        [⟨"etc/passwd".data, true, true⟩, ⟨"etc/.wh.gone".data, true, true⟩,
          ⟨"dev/tty".data, true, false⟩] =
      ["etc/passwd".data] ∧
    "etc/.wh.gone".data ∉ applyLayerUnpack
        [⟨"etc/passwd".data, true, true⟩, ⟨"etc/.wh.gone".data, true, true⟩,
          ⟨"dev/tty".data, true, false⟩] := by
  have h := apply_layer_extraction_spec
    [⟨"etc/passwd".data, true, true⟩, ⟨"etc/.wh.gone".data, true, true⟩,
      ⟨"dev/tty".data, true, false⟩]
  refine ⟨by rw [h.1]; rfl, ?_⟩
  exact h.2.1 ⟨"etc/.wh.gone".data, true, true⟩ (by simp) (by decide)

/-- A filesystem path as segments relative to the darker root; the
filesystem itself is the list of existing paths (directories, files and
symlinks alike — only existence matters to the claims). -/
abbrev FsPath := List (List Char)

/-- The ancestors a path brings into existence, shortest first. -/
def pathAncestry (p : FsPath) : List FsPath :=
  (List.range p.length).map (fun i => p.take (i + 1))

/-- `fs::create_dir_all`: afterwards the directory and every ancestor
exist; existing paths are untouched. -/
def mkdirAll (p : FsPath) (fs : List FsPath) : List FsPath :=
  pathAncestry p ++ fs

/-- `DarkerPaths::container_dir` (`src/storage/paths.rs` lines 55-57):
`containers/<id>`. -/
def containerDirPath (id : List Char) : FsPath :=
  ["containers".data, id]

/-- `DarkerPaths::container_rootfs` (`src/storage/paths.rs` lines 70-72):
`containers/<id>/rootfs`. -/
def containerRootfsPath (id : List Char) : FsPath :=
  ["containers".data, id, "rootfs".data]

/-- The standard directories of `RootFs::create_standard_dirs`
(`src/filesystem/rootfs.rs` lines 54-67), as rootfs-relative paths. -/
def standardDirs : List FsPath :=
  [["etc".data], ["tmp".data], ["var".data], ["var".data, "log".data],
    ["var".data, "run".data], ["var".data, "tmp".data], ["home".data],
    ["root".data], ["proc".data], ["dev".data], ["opt".data],
    ["usr".data, "local".data, "bin".data]]

/-- The placeholder device files written under `dev/`
(`src/filesystem/rootfs.rs` lines 75-79). -/
def devFiles : List (List Char) :=
  ["null".data, "zero".data, "random".data, "urandom".data]

/-- The host-bridge symlink table of `RootFs::setup_system_symlinks`
(`src/filesystem/rootfs.rs` lines 87-97): container-relative path and
host target. -/
def systemSymlinks : List (FsPath × FsPath) :=
  [(["bin".data], ["bin".data]), (["sbin".data], ["sbin".data]),
    (["usr".data, "bin".data], ["usr".data, "bin".data]),
    (["usr".data, "sbin".data], ["usr".data, "sbin".data]),
    (["usr".data, "lib".data], ["usr".data, "lib".data]),
    (["usr".data, "libexec".data], ["usr".data, "libexec".data]),
    (["usr".data, "share".data], ["usr".data, "share".data]),
    (["System".data], ["System".data]),
    (["Library".data, "Frameworks".data], ["Library".data, "Frameworks".data])]

/-- `RootFs::setup_system_symlinks` (`src/filesystem/rootfs.rs` lines
85-127): for each table entry create the parent, skip when the
container-side path exists, create the link only when the host target
exists; link-creation errors are non-fatal (modelled: creation succeeds
or the entry contributes nothing, both covered by `hostExists`). -/
def setupSystemSymlinks (id : List Char) (hostExists : FsPath → Bool)
    (fs : List FsPath) : List FsPath :=
  systemSymlinks.foldl
    (fun acc pr =>
      let full := containerRootfsPath id ++ pr.1
      let acc1 := mkdirAll full.dropLast acc
      if acc1.contains full then acc1
      else if hostExists pr.2 then full :: acc1
      else acc1)
    fs

/-- `RootFs::apply_layers` (`src/filesystem/rootfs.rs` lines 130-150) at
the path level: no image metadata means nothing to apply; otherwise each
layer contributes its (already whiteout-filtered) relative paths into the
rootfs by copy-merge. -/
def applyLayersModel (id : List Char) (metadata : Option (List (List FsPath)))
    (fs : List FsPath) : List FsPath :=
  match metadata with
  | none => fs
  | some layers =>
    layers.foldl
      (fun acc layer =>
        layer.foldl (fun acc2 rel => (containerRootfsPath id ++ rel) :: acc2) acc)
      fs

/-- `RootFs::setup_volume` (`src/filesystem/rootfs.rs` lines 221-245) at
the path level: create the parent inside the rootfs, then the symlink at
the container path unless it exists. -/
def setupVolume (id : List Char) (containerPath : FsPath)
    (fs : List FsPath) : List FsPath :=
  let full := containerRootfsPath id ++ containerPath
  let fs1 := mkdirAll full.dropLast fs
  if fs1.contains full then fs1 else full :: fs1

/-- `RootFs::setup` (`src/filesystem/rootfs.rs` lines 31-50): rootfs
directory, standard directories, device placeholders, host-bridge
symlinks, layer application, volume wiring — in that order. -/
def rootfsSetup (id : List Char) (hostExists : FsPath → Bool)
    (metadata : Option (List (List FsPath))) (volumes : List FsPath)
    (fs : List FsPath) : List FsPath :=
  let r := containerRootfsPath id
  let fs1 := mkdirAll r fs
  let fs2 := standardDirs.foldl (fun acc d => mkdirAll (r ++ d) acc) fs1
  let fs3 := devFiles.foldl (fun acc f => (r ++ [f]) :: acc) fs2
  let fs4 := setupSystemSymlinks id hostExists fs3
  let fs5 := applyLayersModel id metadata fs4
  volumes.foldl (fun acc v => setupVolume id v acc) fs5

/-- `fs::remove_dir_all` at the path level: the root and everything below
it disappear; symlinked-to paths outside the subtree are untouched (the
link path itself is inside and goes away; its target is not followed). -/
def removeSubtree (root : FsPath) (fs : List FsPath) : List FsPath :=
  fs.filter (fun q => !root.isPrefixOf q)

/-- `RootFs::cleanup` (`src/filesystem/rootfs.rs` lines 248-254): removes
`containers/<id>/rootfs` — and only that subtree. -/
def rootfsCleanup (id : List Char) (fs : List FsPath) : List FsPath :=
  removeSubtree (containerRootfsPath id) fs

/-- The directory removal inside `ContainerStore::remove`
(`src/storage/containers.rs` lines 187-191): removes `containers/<id>`
entirely. -/
def containerStoreRemoveDir (id : List Char) (fs : List FsPath) : List FsPath :=
  removeSubtree (containerDirPath id) fs

theorem mem_foldl_of_mem {β : Type} (step : List FsPath → β → List FsPath)
    (hmono : ∀ acc b q, q ∈ acc → q ∈ step acc b) :
    ∀ (l : List β) (acc : List FsPath) (q : FsPath), q ∈ acc → q ∈ l.foldl step acc := by
  intro l
  induction l with
  | nil => intro acc q h; exact h
  | cons b bs ih =>
    intro acc q h
    exact ih (step acc b) q (hmono acc b q h)

theorem mem_mkdirAll {q : FsPath} (p : FsPath) {fs : List FsPath}
    (h : q ∈ fs) : q ∈ mkdirAll p fs :=
  List.mem_append_right _ h

theorem mem_setupSystemSymlinks {q : FsPath} (id : List Char)
    (hostExists : FsPath → Bool) {fs : List FsPath} (h : q ∈ fs) :
    q ∈ setupSystemSymlinks id hostExists fs := by
  apply mem_foldl_of_mem
  · intro acc b p hp
    simp only []
    by_cases h1 : (mkdirAll (containerRootfsPath id ++ b.1).dropLast acc).contains
        (containerRootfsPath id ++ b.1)
    · simp only [h1, if_true]
      exact mem_mkdirAll _ hp
    · simp only [h1, Bool.false_eq_true, if_false]
      by_cases h2 : hostExists b.2
      · simp only [h2, if_true]
        exact List.mem_cons_of_mem _ (mem_mkdirAll _ hp)
      · simp only [h2, Bool.false_eq_true, if_false]
        exact mem_mkdirAll _ hp
  · exact h

theorem mem_applyLayersModel {q : FsPath} (id : List Char)
    (metadata : Option (List (List FsPath))) {fs : List FsPath} (h : q ∈ fs) :
    q ∈ applyLayersModel id metadata fs := by
  cases metadata with
  | none => exact h
  | some layers =>
    apply mem_foldl_of_mem
    · intro acc layer p hp
      apply mem_foldl_of_mem
      · intro acc2 rel p2 hp2
        exact List.mem_cons_of_mem _ hp2
      · exact hp
    · exact h

theorem rootfsPath_not_isPrefixOf_dirPath (id : List Char) :
    (containerRootfsPath id).isPrefixOf (containerDirPath id) = false := by
  simp [containerRootfsPath, containerDirPath, List.isPrefixOf]

/-- C8 counterexample: on an empty filesystem, `setup` followed by
`cleanup` leaves `containers/<id>` present — cleanup removes only the
`rootfs` subdirectory, not the per-container directory. -/
theorem rootfs_cleanup_counterexample :
    containerDirPath "c1".data ∈
      rootfsCleanup "c1".data
        (rootfsSetup "c1".data (fun _ => false) none [] []) ∧
    containerRootfsPath "c1".data ∉
      rootfsCleanup "c1".data
        (rootfsSetup "c1".data (fun _ => false) none [] []) := by
  decide

/-- C8 (amended): `cleanup` removes exactly the `containers/<id>/rootfs`
subtree (never following a symlink out of it), and after `setup` followed
by `cleanup` the directory `containers/<id>` itself is still present; it
is the directory removal in `ContainerStore::remove` that deletes the
whole per-container directory. -/
theorem rootfs_cleanup_spec (id : List Char) (hostExists : FsPath → Bool)
    (metadata : Option (List (List FsPath))) (volumes : List FsPath)
    (fs : List FsPath) :
    (∀ p, (containerRootfsPath id).isPrefixOf p = true →
      p ∉ rootfsCleanup id fs) ∧
    containerDirPath id ∈
      rootfsCleanup id (rootfsSetup id hostExists metadata volumes fs) ∧
    (∀ p, (containerDirPath id).isPrefixOf p = true →
      p ∉ containerStoreRemoveDir id fs) := by
  refine ⟨?_, ?_, ?_⟩
  · intro p hpre hmem
    have h2 := (List.mem_filter.mp hmem).2
    rw [hpre] at h2
    cases h2
  · have hanc : pathAncestry (containerRootfsPath id) =
        [["containers".data], containerDirPath id, containerRootfsPath id] := rfl
    have h1 : containerDirPath id ∈
        mkdirAll (containerRootfsPath id) fs := by
      rw [mkdirAll, hanc]
      simp
    have h2 : containerDirPath id ∈
        rootfsSetup id hostExists metadata volumes fs := by
      rw [rootfsSetup]
      apply mem_foldl_of_mem
      · intro acc v p hp
        rw [setupVolume]
        by_cases hc : (mkdirAll (containerRootfsPath id ++ v).dropLast acc).contains
            (containerRootfsPath id ++ v)
        · simp only [hc, if_true]
          exact mem_mkdirAll _ hp
        · simp only [hc, Bool.false_eq_true, if_false]
          exact List.mem_cons_of_mem _ (mem_mkdirAll _ hp)
      · apply mem_applyLayersModel
        apply mem_setupSystemSymlinks
        apply mem_foldl_of_mem
        · intro acc f p hp
          exact List.mem_cons_of_mem _ hp
        · apply mem_foldl_of_mem
          · intro acc d p hp
            exact mem_mkdirAll _ hp
          · exact h1
    exact List.mem_filter.mpr
      ⟨h2, by rw [rootfsPath_not_isPrefixOf_dirPath id]; rfl⟩
  · intro p hpre hmem
    have h2 := (List.mem_filter.mp hmem).2
    rw [hpre] at h2
    cases h2

/-- Witness for the amended C8 at a concrete container id and store. -/
theorem rootfs_cleanup_spec_witness :
    containerRootfsPath "c1".data ∉
      rootfsCleanup "c1".data [containerRootfsPath "c1".data] ∧
    containerDirPath "c1".data ∈
      rootfsCleanup "c1".data
        (rootfsSetup "c1".data (fun _ => false) none [] []) := by
  have h1 := rootfs_cleanup_spec "c1".data (fun _ => false) none []
    [containerRootfsPath "c1".data]
  have h2 := rootfs_cleanup_spec "c1".data (fun _ => false) none [] []
  exact ⟨h1.1 _ (by decide), h2.2.1⟩

/-- Rust `HashMap::insert` on a string-keyed map modelled as an
association list: the new binding replaces any binding of the same key. -/
def mapInsert (k v : List Char) (m : List (List Char × List Char)) :
    List (List Char × List Char) :=
  (k, v) :: m.filter (fun p => p.1 != k)

/-- The 12-character short id: `&id[..12.min(id.len())]`
(`src/storage/containers.rs` line 144). -/
def shortId (id : List Char) : List Char :=
  id.take 12

/-- `ContainerIndex` from `src/storage/containers.rs` lines 67-72. -/
structure ContainerIndex where
  names : List (List Char × List Char)
  shortIds : List (List Char × List Char)
deriving DecidableEq, Repr

/-- The on-disk state the container store reads and writes: its index
plus, per container id, the existing `config.json` ids and the persisted
states. -/
structure ContainerStoreFs where
  index : ContainerIndex
  configs : List (List Char)
  states : List (List Char × ContainerState)
deriving DecidableEq, Repr

/-- `ContainerStore::find` from `src/storage/containers.rs` lines 93-117:
name in the index, then short id, then full id among the short-id values,
then direct config-file existence. -/
def containerFind (st : ContainerStoreFs) (nameOrId : List Char) :
    Option (List Char) :=
  match st.index.names.lookup nameOrId with
  | some id => some id
  | none =>
    match st.index.shortIds.lookup nameOrId with
    | some id => some id
    | none =>
      if (st.index.shortIds.map Prod.snd).contains nameOrId then some nameOrId
      else if st.configs.contains nameOrId then some nameOrId
      else none

/-- `ContainerStore::exists` (`src/storage/containers.rs` lines 88-90). -/
def containerExists (st : ContainerStoreFs) (name : List Char) : Bool :=
  (containerFind st name).isSome

/-- `ContainerStore::create` from `src/storage/containers.rs` lines
120-151: write config and initial state, then insert the name and the
short id into the index. It performs no collision check itself. -/
def containerCreate (st : ContainerStoreFs) (name id : List Char)
    (now : Nat) : ContainerStoreFs :=
  { index := { names := mapInsert name id st.index.names,
               shortIds := mapInsert (shortId id) id st.index.shortIds },
    configs := id :: st.configs,
    states := (id, initialContainerState now) :: st.states }

/-- The error variants of `DarkerError` (`src/lib.rs`) the embedded flows
can produce. -/
inductive DarkerErrorModel
  | containerExists (name : List Char)
deriving DecidableEq, Repr

/-- The container-creation flow of `cli/run.rs` lines 106-111 and 169:
fail with `ContainerExists` when the name resolves in the store — the
store is returned untouched — otherwise create. -/
def runCreateFlow (st : ContainerStoreFs) (name id : List Char)
    (now : Nat) : Except DarkerErrorModel Unit × ContainerStoreFs :=
  if containerExists st name then
    (.error (.containerExists name), st)
  else
    (.ok (), containerCreate st name id now)

/-- C9: creating under a name already bound in the name index fails with
`ContainerExists` and leaves the store exactly as it was; a create that
does run (fresh name) leaves the name index mapping that name to
precisely the new container's id. -/
theorem create_name_collision_spec :
    (∀ st name id now id0,
      st.index.names.lookup name = some id0 →
      runCreateFlow st name id now =
        (.error (.containerExists name), st)) ∧
    (∀ st name id now,
      containerFind st name = none →
      (runCreateFlow st name id now).1 = .ok () ∧
      (runCreateFlow st name id now).2.index.names.lookup name = some id) := by
  constructor
  · intro st name id now id0 h
    have hfind : containerFind st name = some id0 := by
      rw [containerFind, h]
    rw [runCreateFlow, containerExists, hfind]
    rfl
  · intro st name id now h
    rw [runCreateFlow, containerExists, h]
    refine ⟨rfl, ?_⟩
    simp [containerCreate, mapInsert, List.lookup]

/-- Witness for C9: a store whose index binds `web`; creating `web` again
fails and changes nothing, creating `api` binds it to the new id. -/
theorem create_name_collision_spec_witness :
    runCreateFlow
        ⟨⟨[("web".data, "aaa".data)], [("aaa".data, "aaa".data)]⟩,
          ["aaa".data], [("aaa".data, initialContainerState 0)]⟩
        "web".data "bbb".data 5 =
      (.error (.containerExists "web".data),
        ⟨⟨[("web".data, "aaa".data)], [("aaa".data, "aaa".data)]⟩,
          ["aaa".data], [("aaa".data, initialContainerState 0)]⟩) ∧
    (runCreateFlow
        ⟨⟨[("web".data, "aaa".data)], [("aaa".data, "aaa".data)]⟩,
          ["aaa".data], [("aaa".data, initialContainerState 0)]⟩
        "api".data "bbb".data 5).2.index.names.lookup "api".data =
      some "bbb".data := by
  have h := create_name_collision_spec
  refine ⟨h.1 _ "web".data "bbb".data 5 "aaa".data (by decide), ?_⟩
  exact (h.2 _ "api".data "bbb".data 5 (by decide)).2

/-- `ImageConfigDetails` from `src/storage/images.rs` lines 31-48; the
serde-map-valued fields are modelled as key or key-value lists. -/
structure ImageConfigDetails where
  cmd : Option (List (List Char))
  entrypoint : Option (List (List Char))
  env : Option (List (List Char))
  workingDir : Option (List Char)
  user : Option (List Char)
  exposedPorts : Option (List (List Char))
  volumes : Option (List (List Char))
  labels : Option (List (List Char × List Char))
deriving DecidableEq, Repr

/-- `ImageConfig` from `src/storage/images.rs` lines 25-28. -/
structure ImageConfig where
  config : ImageConfigDetails
deriving DecidableEq, Repr

/-- `ImageConfig::default()`: every serde-defaulted field absent. -/
def imageConfigDefault : ImageConfig :=
  ⟨⟨none, none, none, none, none, none, none, none⟩⟩

/-- `ImageStore::load_config` from `src/storage/images.rs` lines 193-201
over a store model mapping image ids to their stored (already parsed)
`config.json` documents: a missing file yields `Ok` with the default
config, never an error. -/
def loadConfig (storedConfigs : List (List Char × ImageConfig))
    (imageId : List Char) : Except Unit ImageConfig :=
  match storedConfigs.lookup imageId with
  | none => .ok imageConfigDefault
  | some cfg => .ok cfg

/-- Command resolution of `cli/run.rs` lines 124-130. -/
def resolveCommand (argsCommand : List (List Char))
    (argsEntrypoint : Option (List Char)) (cfg : ImageConfig) :
    List (List Char) :=
  if argsCommand ≠ [] then argsCommand
  else
    match argsEntrypoint with
    | some e => [e]
    | none => cfg.config.cmd.getD []

/-- Entrypoint resolution of `cli/run.rs` lines 133-136 (the config
entrypoint list is joined with spaces). -/
def resolveEntrypoint (argsEntrypoint : Option (List Char))
    (cfg : ImageConfig) : Option (List Char) :=
  match argsEntrypoint with
  | some e => some e
  | none => cfg.config.entrypoint.map (List.intercalate " ".data)

/-- Working-directory resolution of `cli/run.rs` lines 139-143. -/
def resolveWorkdir (argsWorkdir : Option (List Char)) (cfg : ImageConfig) :
    List Char :=
  match argsWorkdir with
  | some w => w
  | none =>
    match cfg.config.workingDir with
    | some w => w
    | none => "/".data

/-- Environment merge of `cli/run.rs` lines 146-147. -/
def resolveEnv (argsEnv : List (List Char)) (cfg : ImageConfig) :
    List (List Char) :=
  cfg.config.env.getD [] ++ argsEnv

/-- C10: when no `config.json` is stored for an image id, `load_config`
returns `Ok` with the all-fields-empty default rather than an error, and
a `run` against such an image resolves to an empty command, no
entrypoint, empty environment and the `/` working directory. -/
theorem load_config_missing_default :
    (∀ stored id, stored.lookup id = none →
      loadConfig stored id = .ok imageConfigDefault) ∧
    imageConfigDefault = ⟨⟨none, none, none, none, none, none, none, none⟩⟩ ∧
    resolveCommand [] none imageConfigDefault = [] ∧
    resolveEntrypoint none imageConfigDefault = none ∧
    resolveEnv [] imageConfigDefault = [] ∧
    resolveWorkdir none imageConfigDefault = "/".data := by
  refine ⟨?_, rfl, rfl, rfl, rfl, rfl⟩
  intro stored id h
  rw [loadConfig, h]

/-- Witness for C10 at the empty store. -/
theorem load_config_missing_default_witness :
    loadConfig [] "deadbeef".data = .ok imageConfigDefault :=
  load_config_missing_default.1 [] "deadbeef".data rfl

end Darker
